import Mathlib

/-!
Verification of the cache service and background refresh scheduler of the
pylbapi repository (`app/db/cache_service.py`, `app/db/database.py`,
`app/tasks/background_refresh.py`), via a shallow embedding.

Modelling conventions:
* A Mongo/Python document is an association list `Doc` from string keys to
  `Value`s; `dget` is key lookup (first binding wins, as in a Python dict,
  whose keys are unique), `dset` is `d[k] = v` (the new binding replaces any
  old one).
* Timestamps (`datetime` values) are integers counting seconds; each call of
  `datetime.utcnow()` in the source becomes an explicit integer parameter,
  passed in source order (`t1`, `t2`, `t3`).  A string field that
  `datetime.fromisoformat` would accept (after the `Z` replacement) is
  embedded as `Value.vtstr t` carrying the parsed instant; any other string
  is `Value.vstr` and fails to parse.
* A collection is the list of its documents in insertion order; Mongo's
  `find_one` returns the first match, `update_one` updates the first match,
  `insert_one` appends.  The store-internal `_id` field is not modelled (it
  never reaches any behaviour the claims mention).
* A raised `KeyError` is an explicit `CacheResult.keyError` value carrying
  the (unchanged) collection; callers that wrap the call in `try/except`
  pattern-match on it.
-/

namespace Pylbapi

/-- A Python/BSON value as far as this subsystem inspects one: strings that
do not parse as ISO timestamps, strings that parse to the instant `t`,
`datetime` objects, booleans and integers. -/
inductive Value where
  | vstr (s : String)
  | vtstr (t : Int)
  | vtime (t : Int)
  | vbool (b : Bool)
  | vint (n : Int)
deriving DecidableEq

/-- Python truthiness of a `Value` (`bool(v)`). -/
def Value.truthy : Value → Bool
  | .vstr s => s ≠ ""
  | .vtstr _ => true
  | .vtime _ => true
  | .vbool b => b
  | .vint n => n ≠ 0

/-- A document: a Python dict / Mongo document as a key-value list. -/
abbrev Doc := List (String × Value)

/-- A collection: the list of its documents in insertion order. -/
abbrev Coll := List Doc

/-- Key lookup in a document (`d[k]` / `d.get(k)`), first binding wins. -/
def dget (d : Doc) (k : String) : Option Value :=
  match d with
  | [] => none
  | (k', v) :: rest => if k' = k then some v else dget rest k

/-- Key update in a document (`d[k] = v`): the new binding replaces any
existing binding of `k`. -/
def dset (d : Doc) (k : String) (v : Value) : Doc :=
  (k, v) :: d.filter (fun p => p.1 ≠ k)

/-- The keys of a document. -/
def dkeys (d : Doc) : List String :=
  d.map Prod.fst

/-- Mongo `$set` with update document `u`: every binding of `u` is written
into `d`, later bindings winning (Python dict-merge order). -/
def apply_set (d : Doc) (u : Doc) : Doc :=
  u.foldl (fun acc p => dset acc p.1 p.2) d

/-- `Database.find_one(collection, {"id": i})`: the first document whose
`id` field equals `i`. -/
def find_by_id (c : Coll) (i : Value) : Option Doc :=
  match c with
  | [] => none
  | d :: rest => if dget d "id" = some i then some d else find_by_id rest i

/-- Mongo `update_one`: apply the update to the first document matching
`id = i`, leaving every other document (and all positions) unchanged. -/
def update_first (c : Coll) (i : Value) (u : Doc) : Coll :=
  match c with
  | [] => []
  | d :: rest =>
    if dget d "id" = some i then apply_set d u :: rest
    else d :: update_first rest i u

/-- Number of documents in the collection whose `id` field equals `i`. -/
def count_id (c : Coll) (i : Value) : Nat :=
  match c with
  | [] => 0
  | d :: rest => (if dget d "id" = some i then 1 else 0) + count_id rest i

/-- `Database.insert_one` (database.py lines 69-75): stamps
`document["createdAt"] = datetime.utcnow()` (the parameter `t`) and appends
the document to the collection. -/
def insert_one (t : Int) (c : Coll) (doc : Doc) : Coll :=
  c ++ [dset doc "createdAt" (Value.vtime t)]

/-- `Database.update_one` (database.py lines 77-84): merges
`{** update["$set"], "updatedAt": utcnow()}` (the parameter `t`) and applies
it as `$set` to the first document matching `id = i`. -/
def update_one (t : Int) (c : Coll) (i : Value) (u : Doc) : Coll :=
  update_first c i (dset u "updatedAt" (Value.vtime t))

/-- `CacheService.CACHE_EXPIRATION_DAYS` (cache_service.py line 11). -/
def CACHE_EXPIRATION_DAYS : Nat := 3

/-- `timedelta(days=CACHE_EXPIRATION_DAYS)` in seconds. -/
def expiration_window : Int := (CACHE_EXPIRATION_DAYS : Int) * 86400

/-- The parse step of `is_cache_expired`: a string value goes through
`datetime.fromisoformat` (succeeding only for `vtstr`), a `datetime` value
is used directly, and any other type makes the later subtraction raise
`TypeError`; `none` is the raised-`ValueError`/`TypeError` outcome. -/
def parse_updated_at : Value → Option Int
  | .vtstr t => some t
  | .vtime t => some t
  | _ => none

/-- `CacheService.is_cache_expired` (cache_service.py lines 70-95), with
`datetime.utcnow()` passed as `now`; `data` is `none` when the caller holds
no record.  Returns true on absent/empty data, missing `updatedAt`, a parse
failure, or `now - updatedAt > timedelta(days=3)`. -/
def is_cache_expired (now : Int) (data : Option Doc) : Bool :=
  match data with
  | none => true
  | some d =>
    if d.isEmpty then true
    else
      match dget d "updatedAt" with
      | none => true
      | some v =>
        match parse_updated_at v with
        | none => true
        | some t => decide (now - t > expiration_window)

/-- What `cache_response` returns on success: the document's own `id` after
an update, or the store-internal id after an insert. -/
inductive CacheRet where
  | updatedId (i : Value)
  | insertedStoreId
deriving DecidableEq

/-- Outcome of `cache_response`: a raised `KeyError` (with the collection
as it stood, untouched) or normal completion with the new collection. -/
inductive CacheResult where
  | keyError (c : Coll)
  | ok (c : Coll) (r : CacheRet)
deriving DecidableEq

/-- `CacheService.cache_response` (cache_service.py lines 97-127).
Stamps `data["updatedAt"] = utcnow()` (`t1`), then reads `data["id"]` —
raising `KeyError` before any store write when the key is absent — and
either updates the existing record via `Database.update_one` (whose own
`utcnow()` is `t2`) or stamps `data["createdAt"] = utcnow()` (`t2`) and
inserts via `Database.insert_one` (whose `utcnow()` is `t3`). -/
def cache_response (t1 t2 t3 : Int) (c : Coll) (data : Doc) : CacheResult :=
  let data1 := dset data "updatedAt" (Value.vtime t1)
  match dget data1 "id" with
  | none => CacheResult.keyError c
  | some i =>
    match find_by_id c i with
    | some _ => CacheResult.ok (update_one t2 c i data1) (CacheRet.updatedId i)
    | none =>
      let data2 := dset data1 "createdAt" (Value.vtime t2)
      CacheResult.ok (insert_one t3 c data2) CacheRet.insertedStoreId

/-- The object a `fetch_function` hands back to `handle_request`: either a
Pydantic-style model (field access through attributes, so
`hasattr(response, "id")` holds exactly when the field exists, and
`response.dict()` yields the field mapping) or a plain mapping (a `dict`,
on which `hasattr(response, "id")` is always `False` — dict keys are not
attributes). -/
inductive FetchResult where
  | model (fields : Doc)
  | mapping (fields : Doc)
deriving DecidableEq

/-- `hasattr(response, "id")` composed with the attribute read: `some v`
exactly when the attribute exists. -/
def fetch_id_attr : FetchResult → Option Value
  | .model f => dget f "id"
  | .mapping _ => none

/-- `response.dict() if hasattr(response, "dict") else response`. -/
def fetch_fields : FetchResult → Doc
  | .model f => f
  | .mapping f => f

/-- What `handle_request` returns: the cached document on a hit, or the
fetched response itself on a miss. -/
inductive HandleRet where
  | fromCache (d : Doc)
  | fetched (r : FetchResult)
deriving DecidableEq

/-- The cache-miss tail of `CacheService.handle_request` (cache_service.py
lines 159-173).  The `updatedAt` stamp (`tiso`, an `isoformat()` string) is
applied whenever the guard runs: `data` is a `dict` there, so
`not hasattr(data, "updatedAt")` is always true.  Caching happens only when
`hasattr(response, "id") and response.id` holds, i.e. only for a model
response with a truthy `id`; the response itself is returned either way. -/
def handle_fetch (t1 t2 t3 tiso : Int) (c : Coll) (fetch : FetchResult) :
    Coll × HandleRet :=
  match fetch_id_attr fetch with
  | some i =>
    if i.truthy then
      let data := fetch_fields fetch
      let data1 := dset data "updatedAt" (Value.vtstr tiso)
      match cache_response t1 t2 t3 c data1 with
      | CacheResult.ok c' _ => (c', HandleRet.fetched fetch)
      | CacheResult.keyError c' => (c', HandleRet.fetched fetch)
    else (c, HandleRet.fetched fetch)
  | none => (c, HandleRet.fetched fetch)

/-- `CacheService.handle_request` (cache_service.py lines 129-173): return
the cached document whenever a truthy (non-empty) one exists — with no
freshness check — and otherwise run the fetch-and-maybe-cache tail.  The
`_id` pop on the hit path is the identity here since `_id` is not
modelled. -/
def handle_request (t1 t2 t3 tiso : Int) (c : Coll) (rid : Value)
    (fetch : FetchResult) : Coll × HandleRet :=
  match find_by_id c rid with
  | some cached =>
    if cached.isEmpty then handle_fetch t1 t2 t3 tiso c fetch
    else (c, HandleRet.fromCache cached)
  | none => handle_fetch t1 t2 t3 tiso c fetch

/-- `BackgroundRefreshService.SCRAPE_DELAY` (background_refresh.py line
24), in seconds. -/
def SCRAPE_DELAY : Nat := 10

/-- The fixed seed-league list (background_refresh.py line 101). -/
def popular_leagues : List String := ["GB1", "ES1", "L1", "IT1", "FR1"]

/-- The Provider Client as the scheduler consumes it.  For the two
roster-shaped results, the outer `Option` is Python falsiness of the whole
response and the inner `Option` is presence of the `results` / `players`
key; `get_player_profile` yields the profile as a field mapping, `none`
when the fetch produced nothing. -/
structure Provider where
  search_clubs : String → Option (Option (List Doc))
  get_club_players : Value → Option (Option (List Doc))
  get_player_profile : Value → Option Doc

/-- `BackgroundRefreshService.refresh_player_profile` (background_refresh.py
lines 141-170) for player id `pid`, with the provider's fresh data passed
as `fetched` (an empty mapping is likewise falsy).  Reads the cached
record's `isLbPlayer` flag (`.get("isLbPlayer", False)`, then truthiness),
returns without writing when the fetch is falsy, else forces the flag true
when it was set and writes through `cache_response`; the surrounding
`try/except` turns a `KeyError` from `cache_response` into a logged no-op. -/
def refresh_player_profile (t1 t2 t3 : Int) (players : Coll) (pid : Value)
    (fetched : Option Doc) : Coll :=
  let cached := find_by_id players pid
  let is_lb : Bool :=
    match cached with
    | some cp =>
      match dget cp "isLbPlayer" with
      | some v => v.truthy
      | none => false
    | none => false
  match fetched with
  | none => players
  | some d =>
    if d.isEmpty then players
    else
      let data := if is_lb then dset d "isLbPlayer" (Value.vbool true) else d
      match cache_response t1 t2 t3 players data with
      | CacheResult.keyError c => c
      | CacheResult.ok c _ => c

/-- The per-player loop of `refresh_club_players` (background_refresh.py
lines 135-139): refresh each roster player, sleeping `SCRAPE_DELAY` after
each.  Returns (players collection, provider calls made, total delay
slept).  A roster entry without an `id` key raises `KeyError` at
`player["id"]`, aborting the remainder of this club's loop (the exception
is caught one level up, per club). -/
def refresh_roster (prov : Provider) (t1 t2 t3 : Int) (players : Coll) :
    List Doc → Coll × Nat × Nat
  | [] => (players, 0, 0)
  | p :: rest =>
    match dget p "id" with
    | none => (players, 0, 0)
    | some pid =>
      let players' :=
        refresh_player_profile t1 t2 t3 players pid (prov.get_player_profile pid)
      let (players'', calls, delay) := refresh_roster prov t1 t2 t3 players' rest
      (players'', calls + 1, delay + SCRAPE_DELAY)

/-- `BackgroundRefreshService.refresh_club_players` (background_refresh.py
lines 116-139): one roster fetch, one `SCRAPE_DELAY` sleep, then the
per-player loop when the response is truthy and has a `players` key. -/
def refresh_club_players (prov : Provider) (t1 t2 t3 : Int) (players : Coll)
    (club_id : Value) : Coll × Nat × Nat :=
  match prov.get_club_players club_id with
  | some (some ps) =>
    let (players', calls, delay) := refresh_roster prov t1 t2 t3 players ps
    (players', 1 + calls, SCRAPE_DELAY + delay)
  | _ => (players, 1, SCRAPE_DELAY)

/-- The per-club loop of `refresh_all_players` (background_refresh.py lines
80-84): each club's refresh runs under its own `try/except`, so a club
entry without an `id` key (a `KeyError` at `club["id"]`) is logged and
skipped. -/
def refresh_clubs_list (prov : Provider) (t1 t2 t3 : Int) (players : Coll) :
    List Doc → Coll × Nat × Nat
  | [] => (players, 0, 0)
  | club :: rest =>
    match dget club "id" with
    | none => refresh_clubs_list prov t1 t2 t3 players rest
    | some cid =>
      let (players', calls, delay) := refresh_club_players prov t1 t2 t3 players cid
      let (players'', calls', delay') :=
        refresh_clubs_list prov t1 t2 t3 players' rest
      (players'', calls + calls', delay + delay')

/-- The club-candidate extraction of the seeding loop (background_refresh.py
lines 107-109): `{"id": club["id"], "name": club["name"]}` per result entry;
a missing key raises `KeyError` (returned as `none`), which nothing in
`get_all_clubs` catches. -/
def seed_entries : List Doc → Option (List Doc)
  | [] => some []
  | cb :: rest =>
    match dget cb "id", dget cb "name" with
    | some i, some n =>
      (seed_entries rest).map (fun l => [("id", i), ("name", n)] :: l)
    | _, _ => none

/-- The seeding loop of `get_all_clubs` (background_refresh.py lines
103-112): one `search_clubs` call per league, collecting candidates when
the response is truthy and has a `results` key, then a `SCRAPE_DELAY` sleep
after every league.  Returns (collected clubs, provider calls, delay). -/
def seed_leagues (prov : Provider) : List String → Option (List Doc × Nat × Nat)
  | [] => some ([], 0, 0)
  | lg :: rest =>
    let entries? : Option (List Doc) :=
      match prov.search_clubs lg with
      | some (some results) => seed_entries results
      | _ => some []
    match entries? with
    | none => none
    | some es =>
      match seed_leagues prov rest with
      | none => none
      | some (l, calls, delay) => some (es ++ l, 1 + calls, SCRAPE_DELAY + delay)

/-- `BackgroundRefreshService.get_all_clubs` (background_refresh.py lines
86-114): read the stored clubs (`to_list(length=1000)` caps the read at the
first 1000 documents); when that list is truthy return it with no provider
call, otherwise seed from `popular_leagues`. -/
def get_all_clubs (prov : Provider) (clubs_coll : Coll) :
    Option (List Doc × Nat × Nat) :=
  let clubs := clubs_coll.take 1000
  if clubs.isEmpty then seed_leagues prov popular_leagues
  else some (clubs, 0, 0)

/-- The two collections one refresh cycle touches. -/
structure RefreshStore where
  clubs : Coll
  players : Coll
deriving DecidableEq

/-- `BackgroundRefreshService.refresh_all_players` (background_refresh.py
lines 68-84): discover the working set, return at once when it is empty,
else run the per-club loop.  `none` models a `KeyError` escaping the
seeding loop (caught only by the outer refresh-loop `try`).  The cycle's
`utcnow()` readings are collapsed to the fixed triple `t1 t2 t3`, which no
claim about this function inspects. -/
def refresh_all_players (prov : Provider) (t1 t2 t3 : Int) (st : RefreshStore) :
    Option (RefreshStore × Nat × Nat) :=
  match get_all_clubs prov st.clubs with
  | none => none
  | some (clubs, calls0, delay0) =>
    if clubs.isEmpty then some (st, calls0, delay0)
    else
      let (players', calls, delay) :=
        refresh_clubs_list prov t1 t2 t3 st.players clubs
      some ({ st with players := players' }, calls0 + calls, delay0 + delay)

/-- How an awaited asyncio task terminated: normally, or by raising
`asyncio.CancelledError`. -/
inductive TaskExit where
  | normal
  | cancelled
deriving DecidableEq

/-- The scheduler's observable state (background_refresh.py lines 26-29):
the `is_running` flag and the task handle, plus two ghost counters — how
many refresh-loop tasks are currently alive and how many were ever spawned
(`asyncio.create_task` calls). -/
structure Sched where
  is_running : Bool
  task : Option Nat
  live : Nat
  spawned : Nat
deriving DecidableEq

/-- The freshly constructed service (`BackgroundRefreshService.__init__`). -/
def sched_init : Sched :=
  { is_running := false, task := none, live := 0, spawned := 0 }

/-- `BackgroundRefreshService.start` (background_refresh.py lines 31-39):
a no-op while already running, else set the flag and spawn the refresh
loop as a new task. -/
def sched_start (s : Sched) : Sched :=
  if s.is_running then s
  else
    { is_running := true, task := some s.spawned, live := s.live + 1,
      spawned := s.spawned + 1 }

/-- `BackgroundRefreshService.stop` (background_refresh.py lines 41-53):
a no-op while stopped; otherwise clear the flag, cancel the task and await
it until it has exited (afterwards no loop task is alive), catching
`asyncio.CancelledError` with `pass`.  `exit` is how the awaited task
terminated; the second component is the exception, if any, that `stop`
itself lets escape. -/
def sched_stop (s : Sched) (exit : TaskExit) : Sched × Option TaskExit :=
  if s.is_running then
    let s' := { is_running := false, task := s.task, live := 0,
                spawned := s.spawned }
    match s.task with
    | none => (s', none)
    | some _ =>
      match exit with
      | TaskExit.cancelled => (s', none)
      | TaskExit.normal => (s', none)
  else (s, none)

/-- One externally invoked method on the scheduler singleton. -/
inductive SchedOp where
  | opStart
  | opStop (exit : TaskExit)
deriving DecidableEq

/-- Apply one invocation to the scheduler state. -/
def sched_step (s : Sched) : SchedOp → Sched
  | SchedOp.opStart => sched_start s
  | SchedOp.opStop exit => (sched_stop s exit).1

/-- Run a sequence of `start`/`stop` invocations from the initial state. -/
def sched_run (ops : List SchedOp) : Sched :=
  ops.foldl sched_step sched_init

/-! ## Document lemmas -/

theorem dget_dset_self (d : Doc) (k : String) (v : Value) :
    dget (dset d k v) k = some v := by
  simp [dset, dget]

theorem dget_filter_ne (d : Doc) (k k' : String) (h : k' ≠ k) :
    dget (d.filter (fun p => p.1 ≠ k)) k' = dget d k' := by
  induction d with
  | nil => rfl
  | cons p rest ih =>
    obtain ⟨a, b⟩ := p
    by_cases hp : a = k
    · have hfil : ((a, b) :: rest).filter (fun p => p.1 ≠ k) =
          rest.filter (fun p => p.1 ≠ k) := by
        simp [List.filter_cons, hp]
      have hne : a ≠ k' := fun hk => h (hk ▸ hp)
      rw [hfil, ih]
      simp [dget, hne]
    · have hfil : ((a, b) :: rest).filter (fun p => p.1 ≠ k) =
          (a, b) :: rest.filter (fun p => p.1 ≠ k) := by
        simp [List.filter_cons, hp]
      rw [hfil]
      simp only [dget]
      rw [ih]

theorem dget_dset_ne (d : Doc) (k k' : String) (v : Value) (h : k' ≠ k) :
    dget (dset d k v) k' = dget d k' := by
  simp only [dset, dget]
  rw [if_neg (fun hk => h hk.symm)]
  exact dget_filter_ne d k k' h

theorem mem_dkeys_of_dget (d : Doc) (k : String) (v : Value)
    (h : dget d k = some v) : k ∈ dkeys d := by
  induction d with
  | nil => simp [dget] at h
  | cons p rest ih =>
    obtain ⟨a, b⟩ := p
    simp only [dget] at h
    by_cases hp : a = k
    · simp [dkeys, hp]
    · rw [if_neg hp] at h
      simp only [dkeys, List.map_cons, List.mem_cons]
      exact Or.inr (ih h)

theorem dget_eq_none_of_not_mem (d : Doc) (k : String) (h : k ∉ dkeys d) :
    dget d k = none := by
  induction d with
  | nil => rfl
  | cons p rest ih =>
    obtain ⟨a, b⟩ := p
    simp only [dkeys, List.map_cons, List.mem_cons] at h
    push_neg at h
    simp only [dget]
    rw [if_neg (fun hh => h.1 hh.symm)]
    exact ih h.2

theorem dget_apply_set_notin (u : Doc) (d : Doc) (k : String)
    (h : k ∉ dkeys u) : dget (apply_set d u) k = dget d k := by
  induction u generalizing d with
  | nil => rfl
  | cons p rest ih =>
    obtain ⟨a, b⟩ := p
    simp only [dkeys, List.map_cons, List.mem_cons] at h
    push_neg at h
    show dget (apply_set (dset d a b) rest) k = dget d k
    rw [ih (dset d a b) h.2]
    exact dget_dset_ne d a k b h.1

theorem dget_apply_set_unique (u : Doc) (d : Doc) (k : String) (v : Value)
    (h1 : (dkeys u).count k = 1) (h2 : dget u k = some v) :
    dget (apply_set d u) k = some v := by
  induction u generalizing d with
  | nil => simp [dget] at h2
  | cons p rest ih =>
    obtain ⟨a, b⟩ := p
    by_cases hp : a = k
    · subst hp
      have hrest : a ∉ dkeys rest := by
        simp only [dkeys, List.map_cons, List.count_cons_self] at h1
        have h0 : (rest.map Prod.fst).count a = 0 := by omega
        exact List.count_eq_zero.mp h0
      have hv : b = v := by
        simpa [dget] using h2
      show dget (apply_set (dset d a b) rest) a = some v
      rw [dget_apply_set_notin rest _ a hrest, dget_dset_self, hv]
    · have h1' : (dkeys rest).count k = 1 := by
        simp only [dkeys, List.map_cons, List.count_cons] at h1
        rw [if_neg (by simpa using hp)] at h1
        simpa using h1
      have h2' : dget rest k = some v := by
        simpa [dget, hp] using h2
      exact ih (dset d a b) h1' h2'

theorem count_keys_filter_ne (d : Doc) (k k' : String) (h : k' ≠ k) :
    ((d.filter (fun p => p.1 ≠ k)).map Prod.fst).count k' =
      (dkeys d).count k' := by
  induction d with
  | nil => rfl
  | cons p rest ih =>
    obtain ⟨a, b⟩ := p
    by_cases hp : a = k
    · have hfil : (((a, b) :: rest).filter (fun p => p.1 ≠ k)) =
          rest.filter (fun p => p.1 ≠ k) := by
        simp [List.filter_cons, hp]
      have hne : ¬((a == k') = true) := by
        simp only [beq_iff_eq]
        intro hk
        exact h (hk ▸ hp)
      rw [hfil, ih]
      simp [dkeys, List.count_cons, hne]
    · have hfil : (((a, b) :: rest).filter (fun p => p.1 ≠ k)) =
          (a, b) :: rest.filter (fun p => p.1 ≠ k) := by
        simp [List.filter_cons, hp]
      rw [hfil]
      simp only [List.map_cons, List.count_cons, dkeys, ih]

theorem dkeys_dset_count_self (d : Doc) (k : String) (v : Value) :
    (dkeys (dset d k v)).count k = 1 := by
  have hmem : k ∉ (d.filter (fun p => p.1 ≠ k)).map Prod.fst := by
    simp only [List.mem_map, List.mem_filter]
    rintro ⟨p, ⟨-, hp⟩, rfl⟩
    simp at hp
  simp only [dset, dkeys, List.map_cons, List.count_cons_self]
  rw [List.count_eq_zero.mpr hmem]

theorem dkeys_dset_count_ne (d : Doc) (k k' : String) (v : Value)
    (h : k' ≠ k) : (dkeys (dset d k v)).count k' = (dkeys d).count k' := by
  have hne : ¬((k == k') = true) := by
    simpa using fun hk => h hk.symm
  simp only [dset, dkeys, List.map_cons, List.count_cons, if_neg hne]
  simpa using count_keys_filter_ne d k k' h

theorem dkeys_count_eq_one_of_nodup (d : Doc) (k : String) (v : Value)
    (hn : (dkeys d).Nodup) (h : dget d k = some v) :
    (dkeys d).count k = 1 :=
  List.count_eq_one_of_mem hn (mem_dkeys_of_dget d k v h)

/-! ## Collection lemmas -/

theorem find_by_id_eq_none_iff (c : Coll) (i : Value) :
    find_by_id c i = none ↔ count_id c i = 0 := by
  induction c with
  | nil => simp [find_by_id, count_id]
  | cons d rest ih =>
    by_cases hd : dget d "id" = some i
    · simp [find_by_id, count_id, hd]
    · simp [find_by_id, count_id, hd, ih]

theorem count_id_append (c c' : Coll) (i : Value) :
    count_id (c ++ c') i = count_id c i + count_id c' i := by
  induction c with
  | nil => simp [count_id]
  | cons d rest ih => simp [count_id, ih]; omega

theorem find_by_id_append (c c' : Coll) (i : Value) :
    find_by_id (c ++ c') i =
      match find_by_id c i with
      | some r => some r
      | none => find_by_id c' i := by
  induction c with
  | nil => simp [find_by_id]
  | cons d rest ih =>
    by_cases hd : dget d "id" = some i
    · simp [find_by_id, hd]
    · simp [find_by_id, hd, ih]

theorem find_by_id_update_first (c : Coll) (i : Value) (u : Doc) (r : Doc)
    (hf : find_by_id c i = some r)
    (hid : dget (apply_set r u) "id" = some i) :
    find_by_id (update_first c i u) i = some (apply_set r u) := by
  induction c with
  | nil => simp [find_by_id] at hf
  | cons d rest ih =>
    by_cases hd : dget d "id" = some i
    · have hr : d = r := by simpa [find_by_id, hd] using hf
      subst hr
      simp [update_first, find_by_id, hd, hid]
    · have hf' : find_by_id rest i = some r := by
        simpa [find_by_id, hd] using hf
      simp [update_first, find_by_id, hd, ih hf']

theorem count_id_update_first (c : Coll) (i : Value) (u : Doc)
    (h : ∀ x : Doc, dget x "id" = some i →
      dget (apply_set x u) "id" = some i) :
    count_id (update_first c i u) i = count_id c i := by
  induction c with
  | nil => rfl
  | cons d rest ih =>
    by_cases hd : dget d "id" = some i
    · simp [update_first, count_id, hd, h d hd]
    · simp [update_first, count_id, hd, ih]

theorem find_by_id_update_first_ne (c : Coll) (i j pid : Value) (u : Doc)
    (hu : ∀ x : Doc, dget (apply_set x u) "id" = some j)
    (hj : j ≠ pid) (hi : i ≠ pid) :
    find_by_id (update_first c i u) pid = find_by_id c pid := by
  induction c with
  | nil => rfl
  | cons d rest ih =>
    by_cases hd : dget d "id" = some i
    · have h1 : ¬ dget (apply_set d u) "id" = some pid := by
        rw [hu d]
        simpa using hj
      have h2 : ¬ dget d "id" = some pid := by
        rw [hd]
        simpa using hi
      simp only [update_first]
      rw [if_pos hd]
      simp [find_by_id, h1, h2]
    · simp only [update_first]
      rw [if_neg hd]
      by_cases hp : dget d "id" = some pid
      · simp [find_by_id, hp]
      · simp [find_by_id, hp, ih]

/-! ## Shape of the documents `cache_response` writes -/

/-- The `$set` document an update path applies: the caller's `data` with
`updatedAt` stamped at `t1` (cache_service.py line 110) and re-stamped at
`t2` by `Database.update_one` (database.py line 82). -/
def merged_update (t1 t2 : Int) (data : Doc) : Doc :=
  dset (dset data "updatedAt" (Value.vtime t1)) "updatedAt" (Value.vtime t2)

/-- The document an insert path appends: `updatedAt` stamped at `t1`,
`createdAt` stamped at `t2` (cache_service.py line 125) and overwritten at
`t3` by `Database.insert_one` (database.py line 73). -/
def inserted_doc (t1 t2 t3 : Int) (data : Doc) : Doc :=
  dset (dset (dset data "updatedAt" (Value.vtime t1)) "createdAt"
    (Value.vtime t2)) "createdAt" (Value.vtime t3)

theorem merged_update_updatedAt (t1 t2 : Int) (data : Doc) :
    dget (merged_update t1 t2 data) "updatedAt" = some (Value.vtime t2) :=
  dget_dset_self _ _ _

theorem merged_update_other (t1 t2 : Int) (data : Doc) (k : String)
    (h : k ≠ "updatedAt") :
    dget (merged_update t1 t2 data) k = dget data k := by
  unfold merged_update
  rw [dget_dset_ne _ _ _ _ h, dget_dset_ne _ _ _ _ h]

theorem merged_update_count_updatedAt (t1 t2 : Int) (data : Doc) :
    (dkeys (merged_update t1 t2 data)).count "updatedAt" = 1 :=
  dkeys_dset_count_self _ _ _

theorem merged_update_count_other (t1 t2 : Int) (data : Doc) (k : String)
    (h : k ≠ "updatedAt") :
    (dkeys (merged_update t1 t2 data)).count k = (dkeys data).count k := by
  unfold merged_update
  rw [dkeys_dset_count_ne _ _ _ _ h, dkeys_dset_count_ne _ _ _ _ h]

theorem inserted_doc_createdAt (t1 t2 t3 : Int) (data : Doc) :
    dget (inserted_doc t1 t2 t3 data) "createdAt" = some (Value.vtime t3) :=
  dget_dset_self _ _ _

theorem inserted_doc_updatedAt (t1 t2 t3 : Int) (data : Doc) :
    dget (inserted_doc t1 t2 t3 data) "updatedAt" = some (Value.vtime t1) := by
  unfold inserted_doc
  rw [dget_dset_ne _ _ _ _ (by decide), dget_dset_ne _ _ _ _ (by decide),
    dget_dset_self]

theorem inserted_doc_other (t1 t2 t3 : Int) (data : Doc) (k : String)
    (h1 : k ≠ "updatedAt") (h2 : k ≠ "createdAt") :
    dget (inserted_doc t1 t2 t3 data) k = dget data k := by
  unfold inserted_doc
  rw [dget_dset_ne _ _ _ _ h2, dget_dset_ne _ _ _ _ h2,
    dget_dset_ne _ _ _ _ h1]

/-! ## Characterisation of `cache_response` -/

theorem cache_response_keyError (t1 t2 t3 : Int) (c : Coll) (data : Doc)
    (h : dget data "id" = none) :
    cache_response t1 t2 t3 c data = CacheResult.keyError c := by
  have key : dget (dset data "updatedAt" (Value.vtime t1)) "id" = none := by
    rw [dget_dset_ne _ _ _ _ (by decide)]
    exact h
  simp only [cache_response, key]

theorem cache_response_update (t1 t2 t3 : Int) (c : Coll) (data : Doc)
    (i : Value) (r : Doc) (hid : dget data "id" = some i)
    (hf : find_by_id c i = some r) :
    cache_response t1 t2 t3 c data =
      CacheResult.ok (update_first c i (merged_update t1 t2 data))
        (CacheRet.updatedId i) := by
  have key : dget (dset data "updatedAt" (Value.vtime t1)) "id" = some i := by
    rw [dget_dset_ne _ _ _ _ (by decide)]
    exact hid
  simp only [cache_response, key, hf]
  rfl

theorem cache_response_insert (t1 t2 t3 : Int) (c : Coll) (data : Doc)
    (i : Value) (hid : dget data "id" = some i)
    (hf : find_by_id c i = none) :
    cache_response t1 t2 t3 c data =
      CacheResult.ok (c ++ [inserted_doc t1 t2 t3 data])
        CacheRet.insertedStoreId := by
  have key : dget (dset data "updatedAt" (Value.vtime t1)) "id" = some i := by
    rw [dget_dset_ne _ _ _ _ (by decide)]
    exact hid
  simp only [cache_response, key, hf]
  rfl

theorem length_update_first (c : Coll) (i : Value) (u : Doc) :
    (update_first c i u).length = c.length := by
  induction c with
  | nil => rfl
  | cons d rest ih =>
    by_cases hd : dget d "id" = some i
    · simp [update_first, hd]
    · simp [update_first, hd, ih]

theorem mem_dkeys_dset_sub (d : Doc) (k : String) (v : Value) (k' : String)
    (h : k' ∈ dkeys (dset d k v)) : k' = k ∨ k' ∈ dkeys d := by
  simp only [dset, dkeys, List.map_cons, List.mem_cons] at h
  rcases h with h | h
  · exact Or.inl h
  · simp only [List.mem_map, List.mem_filter] at h
    obtain ⟨p, ⟨hp, -⟩, rfl⟩ := h
    exact Or.inr (List.mem_map_of_mem Prod.fst hp)

theorem not_mem_dkeys_merged_update (t1 t2 : Int) (data : Doc) (k : String)
    (h1 : k ∉ dkeys data) (h2 : k ≠ "updatedAt") :
    k ∉ dkeys (merged_update t1 t2 data) := by
  intro hmem
  rcases mem_dkeys_dset_sub _ _ _ _ hmem with h | h
  · exact h2 h
  · rcases mem_dkeys_dset_sub _ _ _ _ h with h' | h'
    · exact h2 h'
    · exact h1 h'

theorem apply_set_merged_of_dget (t1 t2 : Int) (data : Doc) (x : Doc)
    (k : String) (v : Value) (hnd : (dkeys data).Nodup)
    (hk : k ≠ "updatedAt") (hv : dget data k = some v) :
    dget (apply_set x (merged_update t1 t2 data)) k = some v := by
  apply dget_apply_set_unique
  · rw [merged_update_count_other t1 t2 data k hk]
    exact dkeys_count_eq_one_of_nodup data k v hnd hv
  · rw [merged_update_other t1 t2 data k hk]
    exact hv

theorem apply_set_merged_id (t1 t2 : Int) (data : Doc) (i : Value)
    (hnd : (dkeys data).Nodup) (hid : dget data "id" = some i) :
    ∀ x : Doc, dget (apply_set x (merged_update t1 t2 data)) "id" = some i :=
  fun x =>
    apply_set_merged_of_dget t1 t2 data x "id" i hnd (by decide) hid

theorem apply_set_merged_notin (t1 t2 : Int) (data : Doc) (x : Doc)
    (k : String) (h1 : k ∉ dkeys data) (h2 : k ≠ "updatedAt") :
    dget (apply_set x (merged_update t1 t2 data)) k = dget x k :=
  dget_apply_set_notin _ x k (not_mem_dkeys_merged_update t1 t2 data k h1 h2)

theorem apply_set_merged_updatedAt (t1 t2 : Int) (data : Doc) (x : Doc) :
    dget (apply_set x (merged_update t1 t2 data)) "updatedAt" =
      some (Value.vtime t2) :=
  dget_apply_set_unique _ x _ _ (merged_update_count_updatedAt t1 t2 data)
    (merged_update_updatedAt t1 t2 data)

theorem count_id_ne_zero_of_find (c : Coll) (i : Value) (r : Doc)
    (hf : find_by_id c i = some r) : count_id c i ≠ 0 := by
  intro h0
  rw [(find_by_id_eq_none_iff c i).mpr h0] at hf
  exact Option.noConfusion hf

/-- The update path of `cache_response`, in full: on a document carrying
`id = i` (with unique keys, as every Python dict has) against a collection
already holding a record `r` with that id, the call updates in place — the
collection keeps its length, the first `i`-record becomes `r` merged with
the supplied fields, fields absent from the document stay untouched, and
every supplied field other than `updatedAt` is written verbatim. -/
theorem upsert_merge_spec (c : Coll) (data : Doc) (i : Value)
    (s1 s2 s3 : Int) (r : Doc) (hid : dget data "id" = some i)
    (hnd : (dkeys data).Nodup) (hf : find_by_id c i = some r) :
    cache_response s1 s2 s3 c data =
      CacheResult.ok (update_first c i (merged_update s1 s2 data))
        (CacheRet.updatedId i) ∧
    (update_first c i (merged_update s1 s2 data)).length = c.length ∧
    find_by_id (update_first c i (merged_update s1 s2 data)) i =
      some (apply_set r (merged_update s1 s2 data)) ∧
    (∀ k, k ∉ dkeys data → k ≠ "updatedAt" →
      dget (apply_set r (merged_update s1 s2 data)) k = dget r k) ∧
    (∀ k v, dget data k = some v → k ≠ "updatedAt" →
      dget (apply_set r (merged_update s1 s2 data)) k = some v) := by
  refine ⟨cache_response_update s1 s2 s3 c data i r hid hf,
    length_update_first c i _,
    find_by_id_update_first c i _ r hf
      (apply_set_merged_id s1 s2 data i hnd hid r),
    fun k h1 h2 => apply_set_merged_notin s1 s2 data r k h1 h2,
    fun k v hv hk => apply_set_merged_of_dget s1 s2 data r k v hnd hk hv⟩

/-- The collection as `cache_response` leaves it (identical to the input
when the call raised `KeyError`). -/
def cache_coll : CacheResult → Coll
  | .keyError c => c
  | .ok c _ => c

theorem not_mem_dkeys_of_dget_none (d : Doc) (k : String)
    (h : dget d k = none) : k ∉ dkeys d := by
  induction d with
  | nil => simp [dkeys]
  | cons p rest ih =>
    obtain ⟨a, b⟩ := p
    simp only [dget] at h
    by_cases hp : a = k
    · rw [if_pos hp] at h
      exact Option.noConfusion h
    · rw [if_neg hp] at h
      simp only [dkeys, List.map_cons, List.mem_cons]
      push_neg
      exact ⟨fun hk => hp hk.symm, ih h⟩

/-! ## Sequences of `cache_response` calls -/

/-- One `cache_response` invocation: its document and its three `utcnow()`
readings in source order. -/
structure CacheCall where
  doc : Doc
  t1 : Int
  t2 : Int
  t3 : Int
deriving DecidableEq

/-- Run a sequence of `cache_response` calls; `none` when one of them
raises `KeyError` (which would propagate to the caller). -/
def cache_calls (calls : List CacheCall) (c : Coll) : Option Coll :=
  match calls with
  | [] => some c
  | call :: rest =>
    match cache_response call.t1 call.t2 call.t3 c call.doc with
    | CacheResult.keyError _ => none
    | CacheResult.ok c' _ => cache_calls rest c'

/-- The `updatedAt` stamp a record carries after the call sequence
`first :: pre`: the insert stamp `first.t1` when no later call ran, else
the update stamp `t2` of the last call. -/
def update_stamp (first : CacheCall) (pre : List CacheCall) : Int :=
  match pre.getLast? with
  | none => first.t1
  | some lastc => lastc.t2

/-- One update step of a call sequence: the record keeps its `createdAt`
and takes the call's `t2` as `updatedAt`. -/
theorem cache_step_update (i : Value) (c : Coll) (r : Doc) (call : CacheCall)
    (hf : find_by_id c i = some r) (hid : dget call.doc "id" = some i)
    (hnd : (dkeys call.doc).Nodup)
    (hcr : dget call.doc "createdAt" = none) :
    cache_response call.t1 call.t2 call.t3 c call.doc =
      CacheResult.ok (update_first c i (merged_update call.t1 call.t2 call.doc))
        (CacheRet.updatedId i) ∧
    find_by_id (update_first c i (merged_update call.t1 call.t2 call.doc)) i =
      some (apply_set r (merged_update call.t1 call.t2 call.doc)) ∧
    dget (apply_set r (merged_update call.t1 call.t2 call.doc)) "createdAt" =
      dget r "createdAt" ∧
    dget (apply_set r (merged_update call.t1 call.t2 call.doc)) "updatedAt" =
      some (Value.vtime call.t2) := by
  obtain ⟨h1, -, h3, h4, -⟩ :=
    upsert_merge_spec c call.doc i call.t1 call.t2 call.t3 r hid hnd hf
  exact ⟨h1, h3,
    h4 "createdAt" (not_mem_dkeys_of_dget_none call.doc "createdAt" hcr)
      (by decide),
    apply_set_merged_updatedAt call.t1 call.t2 call.doc r⟩

/-- Invariant of a call sequence over an already-present record: the run
completes, the record's `createdAt` is untouched, and its `updatedAt` is
the last call's `t2` (or unchanged when no call ran). -/
theorem cache_calls_invariant (i : Value) (calls : List CacheCall) :
    ∀ (c : Coll) (r : Doc), find_by_id c i = some r →
    (∀ call ∈ calls, dget call.doc "id" = some i ∧
      (dkeys call.doc).Nodup ∧ dget call.doc "createdAt" = none) →
    ∃ (c' : Coll) (r' : Doc), cache_calls calls c = some c' ∧
      find_by_id c' i = some r' ∧
      dget r' "createdAt" = dget r "createdAt" ∧
      dget r' "updatedAt" =
        (match calls.getLast? with
         | none => dget r "updatedAt"
         | some lastc => some (Value.vtime lastc.t2)) := by
  induction calls with
  | nil =>
    intro c r hf _
    exact ⟨c, r, rfl, hf, rfl, rfl⟩
  | cons call rest ih =>
    intro c r hf hcalls
    obtain ⟨hid, hnd, hcr⟩ := hcalls call (List.mem_cons_self call rest)
    obtain ⟨h1, h2, h3, h4⟩ := cache_step_update i c r call hf hid hnd hcr
    obtain ⟨c', r', hrun, hfind, hcreated, hupdated⟩ :=
      ih _ _ h2 (fun cl hcl => hcalls cl (List.mem_cons_of_mem call hcl))
    refine ⟨c', r', ?_, hfind, by rw [hcreated, h3], ?_⟩
    · simp only [cache_calls, h1]
      exact hrun
    · cases hrest : rest.getLast? with
      | none =>
        have hnil : rest = [] := List.getLast?_eq_none_iff.mp hrest
        subst hnil
        rw [hupdated]
        simp only [List.getLast?_nil, List.getLast?_singleton]
        exact h4
      | some lastc =>
        cases rest with
        | nil => exact Option.noConfusion hrest
        | cons x xs =>
          rw [hupdated, hrest, List.getLast?_cons_cons, hrest]

/-- The insert step that opens a call sequence on an absent id: the new
record carries `createdAt = t3` (the `insert_one` stamp) and
`updatedAt = t1` (the line-110 stamp). -/
theorem cache_step_insert (i : Value) (c : Coll) (call : CacheCall)
    (hf : find_by_id c i = none) (hid : dget call.doc "id" = some i) :
    cache_response call.t1 call.t2 call.t3 c call.doc =
      CacheResult.ok
        (c ++ [inserted_doc call.t1 call.t2 call.t3 call.doc])
        CacheRet.insertedStoreId ∧
    find_by_id (c ++ [inserted_doc call.t1 call.t2 call.t3 call.doc]) i =
      some (inserted_doc call.t1 call.t2 call.t3 call.doc) ∧
    dget (inserted_doc call.t1 call.t2 call.t3 call.doc) "createdAt" =
      some (Value.vtime call.t3) ∧
    dget (inserted_doc call.t1 call.t2 call.t3 call.doc) "updatedAt" =
      some (Value.vtime call.t1) := by
  have hidIns : dget (inserted_doc call.t1 call.t2 call.t3 call.doc) "id" =
      some i := by
    rw [inserted_doc_other _ _ _ _ "id" (by decide) (by decide)]
    exact hid
  refine ⟨cache_response_insert call.t1 call.t2 call.t3 c call.doc i hid hf,
    ?_, inserted_doc_createdAt _ _ _ _, inserted_doc_updatedAt _ _ _ _⟩
  rw [find_by_id_append, hf]
  simp [find_by_id, hidIns]

/-! ## Metrics of one refresh cycle -/

/-- The roster the provider yields for a club id (empty when the response
is falsy or has no `players` key). -/
def roster (prov : Provider) (cid : Value) : List Doc :=
  match prov.get_club_players cid with
  | some (some ps) => ps
  | _ => []

/-- The `id` field of a club document (an arbitrary default when absent;
only used under well-formedness). -/
def club_id_of (cb : Doc) : Value :=
  (dget cb "id").getD (Value.vstr "")

/-- P: the total number of roster players across the given clubs. -/
def total_players (prov : Provider) (clubs : List Doc) : Nat :=
  (clubs.map (fun cb => (roster prov (club_id_of cb)).length)).sum

/-- Every club document carries an `id`, and every player in its roster
carries an `id` (so no `KeyError` cuts a loop short). -/
def wellformed_clubs (prov : Provider) (clubs : List Doc) : Bool :=
  clubs.all (fun cb =>
    match dget cb "id" with
    | none => false
    | some i => (roster prov i).all (fun p => (dget p "id").isSome))

/-- Every seed league yields no club candidates (falsy response, missing
`results` key, or an empty result list). -/
def seed_yields_no_clubs (prov : Provider) : Bool :=
  popular_leagues.all (fun lg =>
    match prov.search_clubs lg with
    | some (some results) => results.isEmpty
    | _ => true)

theorem refresh_roster_count (prov : Provider) (t1 t2 t3 : Int)
    (ps : List Doc) : ∀ players : Coll,
    (∀ p ∈ ps, (dget p "id").isSome) →
    (refresh_roster prov t1 t2 t3 players ps).2 =
      (ps.length, SCRAPE_DELAY * ps.length) := by
  induction ps with
  | nil => intro players _; rfl
  | cons p rest ih =>
    intro players h
    have hp : (dget p "id").isSome := h p (List.mem_cons_self p rest)
    cases hpid : dget p "id" with
    | none => rw [hpid] at hp; exact Bool.noConfusion hp
    | some pid =>
      have ihr := ih
        (refresh_player_profile t1 t2 t3 players pid
          (prov.get_player_profile pid))
        (fun q hq => h q (List.mem_cons_of_mem p hq))
      simp only [refresh_roster, hpid]
      rcases hrr : refresh_roster prov t1 t2 t3
          (refresh_player_profile t1 t2 t3 players pid
            (prov.get_player_profile pid)) rest with ⟨pl, calls, delay⟩
      rw [hrr] at ihr
      simp only at ihr ⊢
      injection ihr with hc hd
      subst hc
      subst hd
      simp only [List.length_cons, Prod.mk.injEq]
      exact ⟨trivial, by ring⟩

theorem refresh_club_players_count (prov : Provider) (t1 t2 t3 : Int)
    (players : Coll) (cid : Value)
    (h : ∀ p ∈ roster prov cid, (dget p "id").isSome) :
    (refresh_club_players prov t1 t2 t3 players cid).2 =
      (1 + (roster prov cid).length,
       SCRAPE_DELAY * (1 + (roster prov cid).length)) := by
  cases hcp : prov.get_club_players cid with
  | none => simp [refresh_club_players, hcp, roster]
  | some inner =>
    cases inner with
    | none => simp [refresh_club_players, hcp, roster]
    | some ps =>
      have hps : roster prov cid = ps := by simp [roster, hcp]
      rw [hps] at h
      simp only [refresh_club_players, hcp]
      rcases hrr : refresh_roster prov t1 t2 t3 players ps
        with ⟨pl, calls, delay⟩
      have hcount := refresh_roster_count prov t1 t2 t3 ps players h
      rw [hrr] at hcount
      simp only at hcount ⊢
      injection hcount with hc hd
      subst hc
      subst hd
      simp only [hps, Prod.mk.injEq]
      exact ⟨trivial, by ring⟩

theorem refresh_clubs_list_count (prov : Provider) (t1 t2 t3 : Int)
    (clubs : List Doc) : ∀ players : Coll,
    wellformed_clubs prov clubs = true →
    (refresh_clubs_list prov t1 t2 t3 players clubs).2 =
      (clubs.length + total_players prov clubs,
       SCRAPE_DELAY * (clubs.length + total_players prov clubs)) := by
  induction clubs with
  | nil => intro players _; rfl
  | cons club rest ih =>
    intro players hwf
    rw [wellformed_clubs, List.all_cons, Bool.and_eq_true] at hwf
    obtain ⟨hclub, hrest⟩ := hwf
    cases hcid : dget club "id" with
    | none => rw [hcid] at hclub; exact Bool.noConfusion hclub
    | some i =>
      rw [hcid] at hclub
      have hros : ∀ p ∈ roster prov i, (dget p "id").isSome := by
        intro p hp
        have := (List.all_eq_true.mp hclub) p hp
        simpa using this
      have hcio : club_id_of club = i := by simp [club_id_of, hcid]
      simp only [refresh_clubs_list, hcid]
      rcases hcp : refresh_club_players prov t1 t2 t3 players i
        with ⟨pl1, calls1, delay1⟩
      have h1 := refresh_club_players_count prov t1 t2 t3 players i hros
      rw [hcp] at h1
      simp only at h1
      injection h1 with h1c h1d
      rcases hcl : refresh_clubs_list prov t1 t2 t3 pl1 rest
        with ⟨pl2, calls2, delay2⟩
      have h2 := ih pl1 hrest
      rw [hcl] at h2
      simp only at h2
      injection h2 with h2c h2d
      simp only
      subst h1c
      subst h1d
      subst h2c
      subst h2d
      simp only [List.length_cons, total_players, List.map_cons,
        List.sum_cons, hcio, Prod.mk.injEq]
      refine ⟨by ring, by ring⟩

theorem seed_leagues_count (prov : Provider) (leagues : List String) :
    ∀ res : List Doc × Nat × Nat, seed_leagues prov leagues = some res →
    res.2 = (leagues.length, SCRAPE_DELAY * leagues.length) := by
  induction leagues with
  | nil =>
    intro res h
    simp only [seed_leagues] at h
    rw [← Option.some_injective _ h]
    rfl
  | cons lg rest ih =>
    intro res h
    simp only [seed_leagues] at h
    rcases hent : (match prov.search_clubs lg with
      | some (some results) => seed_entries results
      | _ => some []) with - | es
    · rw [hent] at h
      exact Option.noConfusion h
    · rw [hent] at h
      rcases hrest : seed_leagues prov rest with - | ⟨l, calls, delay⟩
      · rw [hrest] at h
        exact Option.noConfusion h
      · rw [hrest] at h
        have hres := ih (l, calls, delay) hrest
        simp only at hres
        injection hres with hc hd
        subst hc
        subst hd
        rw [← Option.some_injective _ h]
        simp only [List.length_cons, Prod.mk.injEq]
        exact ⟨by omega, by ring⟩

theorem seed_leagues_no_clubs_run (prov : Provider) (leagues : List String)
    (h : leagues.all (fun lg =>
      match prov.search_clubs lg with
      | some (some results) => results.isEmpty
      | _ => true) = true) :
    seed_leagues prov leagues =
      some ([], leagues.length, SCRAPE_DELAY * leagues.length) := by
  induction leagues with
  | nil => rfl
  | cons lg rest ih =>
    rw [List.all_cons, Bool.and_eq_true] at h
    obtain ⟨hlg, hrest⟩ := h
    have hent : (match prov.search_clubs lg with
        | some (some results) => seed_entries results
        | _ => some []) = some [] := by
      cases hs : prov.search_clubs lg with
      | none => rfl
      | some inner =>
        cases inner with
        | none => rfl
        | some results =>
          rw [hs] at hlg
          have : results = [] := by simpa using hlg
          subst this
          rfl
    simp only [seed_leagues, hent, ih hrest, List.length_cons,
      List.nil_append, Option.some.injEq, Prod.mk.injEq]
    exact ⟨trivial, by omega, by ring⟩

theorem dkeys_dset_nodup (d : Doc) (k : String) (v : Value)
    (h : (dkeys d).Nodup) : (dkeys (dset d k v)).Nodup := by
  simp only [dset, dkeys, List.map_cons]
  refine List.nodup_cons.mpr ⟨?_, ?_⟩
  · simp only [List.mem_map, List.mem_filter]
    rintro ⟨p, ⟨-, hp⟩, rfl⟩
    simp at hp
  · exact List.Nodup.sublist ((List.filter_sublist d).map Prod.fst) h

/-! ## Claim theorems -/

/-- The first document of the claimed upsert scenario,
`{id: "42", name: "A"}`. -/
def docA42 : Doc := [("id", Value.vstr "42"), ("name", Value.vstr "A")]

/-- The second document of the claimed upsert scenario,
`{id: "42", name: "B"}`. -/
def docB42 : Doc := [("id", Value.vstr "42"), ("name", Value.vstr "B")]

/-- C1: on a players collection respecting the id-uniqueness invariant (at
most one record with id "42") and with no concurrent writer, caching
`{id: "42", name: "A"}` and then `{id: "42", name: "B"}` leaves exactly one
record with id "42", whose `name` is `"B"`; and in general `cache_response`
on a document whose id already exists updates that record in place —
returning the document id, keeping the collection length (no duplicate
insert), and merging the supplied fields while leaving fields absent from
the document untouched (no wholesale replace). -/
theorem c1_upsert_idempotence (c : Coll) (t1 t2 t3 t4 t5 t6 : Int)
    (h : count_id c (Value.vstr "42") ≤ 1) :
    (count_id (cache_coll (cache_response t4 t5 t6
        (cache_coll (cache_response t1 t2 t3 c docA42)) docB42))
        (Value.vstr "42") = 1 ∧
      ∃ rec,
        find_by_id (cache_coll (cache_response t4 t5 t6
          (cache_coll (cache_response t1 t2 t3 c docA42)) docB42))
          (Value.vstr "42") = some rec ∧
        dget rec "name" = some (Value.vstr "B")) ∧
    (∀ (c' : Coll) (data : Doc) (i : Value) (s1 s2 s3 : Int) (r : Doc),
      dget data "id" = some i → (dkeys data).Nodup →
      find_by_id c' i = some r →
      cache_response s1 s2 s3 c' data =
        CacheResult.ok (update_first c' i (merged_update s1 s2 data))
          (CacheRet.updatedId i) ∧
      (update_first c' i (merged_update s1 s2 data)).length = c'.length ∧
      (∀ k, k ∉ dkeys data → k ≠ "updatedAt" →
        dget (apply_set r (merged_update s1 s2 data)) k = dget r k)) := by
  constructor
  · have hidB : dget docB42 "id" = some (Value.vstr "42") := by decide
    have hndB : (dkeys docB42).Nodup := by decide
    have hnameB : dget docB42 "name" = some (Value.vstr "B") := by decide
    have step2 : ∀ (c1 : Coll) (rec1 : Doc),
        find_by_id c1 (Value.vstr "42") = some rec1 →
        count_id c1 (Value.vstr "42") = 1 →
        count_id (cache_coll (cache_response t4 t5 t6 c1 docB42))
          (Value.vstr "42") = 1 ∧
        ∃ rec, find_by_id (cache_coll (cache_response t4 t5 t6 c1 docB42))
            (Value.vstr "42") = some rec ∧
          dget rec "name" = some (Value.vstr "B") := by
      intro c1 rec1 hfind hcount
      obtain ⟨hcr, hlen, hfound, hnotin, hget⟩ :=
        upsert_merge_spec c1 docB42 (Value.vstr "42") t4 t5 t6 rec1 hidB
          hndB hfind
      rw [hcr]
      dsimp only [cache_coll]
      refine ⟨?_, ⟨_, hfound, hget "name" (Value.vstr "B") hnameB (by decide)⟩⟩
      rw [count_id_update_first _ _ _
        (fun x _ => apply_set_merged_id t4 t5 docB42 (Value.vstr "42") hndB
          hidB x)]
      exact hcount
    have hidA : dget docA42 "id" = some (Value.vstr "42") := by decide
    have hndA : (dkeys docA42).Nodup := by decide
    cases hf1 : find_by_id c (Value.vstr "42") with
    | some r =>
      obtain ⟨hcr, hlen, hfound, hnotin, hget⟩ :=
        upsert_merge_spec c docA42 (Value.vstr "42") t1 t2 t3 r hidA hndA hf1
      rw [hcr]
      dsimp only [cache_coll]
      refine step2 _ _ hfound ?_
      rw [count_id_update_first _ _ _
        (fun x _ => apply_set_merged_id t1 t2 docA42 (Value.vstr "42") hndA
          hidA x)]
      have hne := count_id_ne_zero_of_find c (Value.vstr "42") r hf1
      omega
    | none =>
      rw [cache_response_insert t1 t2 t3 c docA42 (Value.vstr "42") hidA hf1]
      dsimp only [cache_coll]
      have hidIns : dget (inserted_doc t1 t2 t3 docA42) "id" =
          some (Value.vstr "42") := by
        rw [inserted_doc_other t1 t2 t3 docA42 "id" (by decide) (by decide)]
        exact hidA
      have hfindc1 : find_by_id (c ++ [inserted_doc t1 t2 t3 docA42])
          (Value.vstr "42") = some (inserted_doc t1 t2 t3 docA42) := by
        rw [find_by_id_append, hf1]
        simp [find_by_id, hidIns]
      have hcountc1 : count_id (c ++ [inserted_doc t1 t2 t3 docA42])
          (Value.vstr "42") = 1 := by
        rw [count_id_append, (find_by_id_eq_none_iff c _).mp hf1]
        simp [count_id, hidIns]
      exact step2 _ _ hfindc1 hcountc1
  · intro c' data i s1 s2 s3 r hid hnd hf
    obtain ⟨h1, h2, h3, h4, h5⟩ :=
      upsert_merge_spec c' data i s1 s2 s3 r hid hnd hf
    exact ⟨h1, h2, h4⟩

/-- Witness for C1: on the empty collection, the two concrete calls leave
exactly one record with id "42". -/
theorem c1_upsert_idempotence_witness :
    count_id (cache_coll (cache_response 4 5 6
      (cache_coll (cache_response 1 2 3 ([] : Coll) docA42)) docB42))
      (Value.vstr "42") = 1 :=
  (c1_upsert_idempotence [] 1 2 3 4 5 6 (by decide)).1.1

/-- C2: `is_cache_expired` returns true exactly when the record is absent,
lacks an `updatedAt` field, the field fails to parse as a timestamp, or
`now - updatedAt > expiration_window` (3 days); in particular a record with
`updatedAt = now - expiration_window - 1` second yields true, one with
`updatedAt = now - expiration_window + 1` second yields false, and a record
missing `updatedAt` entirely yields true. -/
theorem c2_expiration_boundary :
    (∀ (now : Int) (data : Option Doc),
      is_cache_expired now data = true ↔
        (data = none ∨
         (∃ d, data = some d ∧ dget d "updatedAt" = none) ∨
         (∃ d v, data = some d ∧ dget d "updatedAt" = some v ∧
           parse_updated_at v = none) ∨
         (∃ d v t, data = some d ∧ dget d "updatedAt" = some v ∧
           parse_updated_at v = some t ∧ now - t > expiration_window))) ∧
    (∀ now : Int, is_cache_expired now
      (some [("updatedAt", Value.vtime (now - expiration_window - 1))]) =
        true) ∧
    (∀ now : Int, is_cache_expired now
      (some [("updatedAt", Value.vtime (now - expiration_window + 1))]) =
        false) ∧
    (∀ (now : Int) (d : Doc), dget d "updatedAt" = none →
      is_cache_expired now (some d) = true) := by
  refine ⟨fun now data => ?_, fun now => ?_, fun now => ?_, fun now d h => ?_⟩
  · match data with
    | none => simp [is_cache_expired]
    | some d =>
      by_cases he : d.isEmpty
      · have hd : d = [] := by simpa using he
        subst hd
        simp [is_cache_expired, dget]
      · simp only [is_cache_expired, he, if_false, Bool.if_false_left]
        cases hv : dget d "updatedAt" with
        | none => simp [hv, he]
        | some v =>
          cases hp : parse_updated_at v with
          | none => simp [hv, hp, he]
          | some t => simp [hv, hp, he]
  · simp [is_cache_expired, dget, parse_updated_at]
    omega
  · simp [is_cache_expired, dget, parse_updated_at]
    omega
  · by_cases he : d.isEmpty
    · simp [is_cache_expired, he]
    · simp [is_cache_expired, he, h]

/-- C3 counterexample: the claim fails as stated, because a later
`cache_response` call whose document itself carries a `createdAt` field
overwrites the stored `createdAt` (the `$set` merge writes every supplied
field).  Concretely: caching `{id: "1"}` at time 0 stores
`createdAt = instant 0`, and then caching
`{id: "1", createdAt: instant 99}` rewrites `createdAt` to instant 99. -/
theorem c3_createdAt_counterexample :
    (find_by_id (cache_coll (cache_response 0 0 0 ([] : Coll)
        [("id", Value.vstr "1")])) (Value.vstr "1")).map
      (fun rec => dget rec "createdAt") = some (some (Value.vtime 0)) ∧
    (find_by_id (cache_coll (cache_response 5 5 5
        (cache_coll (cache_response 0 0 0 ([] : Coll)
          [("id", Value.vstr "1")]))
        [("id", Value.vstr "1"), ("createdAt", Value.vtime 99)]))
      (Value.vstr "1")).map (fun rec => dget rec "createdAt") =
      some (some (Value.vtime 99)) := by
  exact ⟨rfl, rfl⟩

/-- C3 (amended): provided the supplied documents carry an `id` (equal to
the record's), have unique keys (as Python dicts do) and do not themselves
contain a `createdAt` field, then across any sequence of `cache_response`
calls starting from an absent id: the run completes, the stored record's
`createdAt` equals the very first call's insert stamp (`first.t3`) and
never changes, and its `updatedAt` after the last call equals that call's
own update stamp — which, when the clock is non-decreasing (any instant
`s` observed before the call precedes the call's own readings), is `≥ s`. -/
theorem c3_timestamp_invariants (i : Value) (c : Coll) (first : CacheCall)
    (pre : List CacheCall)
    (hempty : find_by_id c i = none)
    (hcalls : ∀ call ∈ first :: pre, dget call.doc "id" = some i ∧
      (dkeys call.doc).Nodup ∧ dget call.doc "createdAt" = none) :
    ∃ (c' : Coll) (r' : Doc), cache_calls (first :: pre) c = some c' ∧
      find_by_id c' i = some r' ∧
      dget r' "createdAt" = some (Value.vtime first.t3) ∧
      dget r' "updatedAt" = some (Value.vtime (update_stamp first pre)) ∧
      (∀ s : Int, s ≤ (pre.getLast?.getD first).t1 →
        (pre.getLast?.getD first).t1 ≤ (pre.getLast?.getD first).t2 →
        s ≤ update_stamp first pre) := by
  obtain ⟨hid, hnd, hcr⟩ := hcalls first (List.mem_cons_self first pre)
  obtain ⟨h1, h2, h3, h4⟩ := cache_step_insert i c first hempty hid
  obtain ⟨c', r', hrun, hfind, hcreated, hupdated⟩ :=
    cache_calls_invariant i pre _ _ h2
      (fun cl hcl => hcalls cl (List.mem_cons_of_mem first hcl))
  refine ⟨c', r', ?_, hfind, by rw [hcreated, h3], ?_, ?_⟩
  · simp only [cache_calls, h1]
    exact hrun
  · rw [hupdated]
    simp only [update_stamp]
    cases hlast : pre.getLast? with
    | none => exact h4
    | some lastc => rfl
  · intro s hs hft
    simp only [update_stamp]
    cases hlast : pre.getLast? with
    | none =>
      rw [hlast] at hs
      simp only [Option.getD_none] at hs
      exact hs
    | some lastc =>
      rw [hlast] at hs hft
      simp only [Option.getD_some] at hs hft
      exact le_trans hs hft

/-- Witness for C3 (amended): an insert at times (1,2,3) followed by one
update at times (4,5,6) yields `createdAt = instant 3` and
`updatedAt = instant 5`. -/
theorem c3_timestamp_invariants_witness :
    ∃ (c' : Coll) (r' : Doc),
      cache_calls
        [CacheCall.mk [("id", Value.vstr "1")] 1 2 3,
         CacheCall.mk [("id", Value.vstr "1"), ("name", Value.vstr "x")]
           4 5 6] ([] : Coll) = some c' ∧
      find_by_id c' (Value.vstr "1") = some r' ∧
      dget r' "createdAt" = some (Value.vtime 3) ∧
      dget r' "updatedAt" = some (Value.vtime 5) ∧
      (∀ s : Int, s ≤ 4 → (4 : Int) ≤ 5 → s ≤ 5) :=
  c3_timestamp_invariants (Value.vstr "1") []
    (CacheCall.mk [("id", Value.vstr "1")] 1 2 3)
    [CacheCall.mk [("id", Value.vstr "1"), ("name", Value.vstr "x")] 4 5 6]
    rfl (by decide)

/-- C4: the `isLbPlayer` flag is sticky.  If the cached record for a player
carries `isLbPlayer = true` before a scheduler refresh, then after
`refresh_player_profile` completes with a successful (non-falsy) fetch —
whatever fields the fresh data does or does not contain — the cached record
for that player still carries `isLbPlayer = true`. -/
theorem c4_sticky_flag (t1 t2 t3 : Int) (players : Coll) (pid : Value)
    (cp d : Doc)
    (hfind : find_by_id players pid = some cp)
    (hflag : dget cp "isLbPlayer" = some (Value.vbool true))
    (hne : d ≠ []) (hnd : (dkeys d).Nodup) :
    ∃ cp', find_by_id (refresh_player_profile t1 t2 t3 players pid (some d))
        pid = some cp' ∧
      dget cp' "isLbPlayer" = some (Value.vbool true) := by
  have hisEmpty : d.isEmpty = false := by
    cases d with
    | nil => exact absurd rfl hne
    | cons x xs => rfl
  have hred : refresh_player_profile t1 t2 t3 players pid (some d) =
      cache_coll (cache_response t1 t2 t3 players
        (dset d "isLbPlayer" (Value.vbool true))) := by
    simp only [refresh_player_profile, hfind, hflag, Value.truthy, hisEmpty,
      Bool.false_eq_true, if_false, if_true, cache_coll]
  rw [hred]
  have hndata : (dkeys (dset d "isLbPlayer" (Value.vbool true))).Nodup :=
    dkeys_dset_nodup d _ _ hnd
  have hlbdata : dget (dset d "isLbPlayer" (Value.vbool true)) "isLbPlayer" =
      some (Value.vbool true) := dget_dset_self _ _ _
  cases hdid : dget (dset d "isLbPlayer" (Value.vbool true)) "id" with
  | none =>
    rw [cache_response_keyError t1 t2 t3 players _ hdid]
    exact ⟨cp, hfind, hflag⟩
  | some j =>
    by_cases hj : j = pid
    · subst hj
      obtain ⟨h1, -, h3, -, h5⟩ :=
        upsert_merge_spec players _ j t1 t2 t3 cp hdid hndata hfind
      rw [h1]
      simp only [cache_coll]
      exact ⟨_, h3, h5 "isLbPlayer" (Value.vbool true) hlbdata (by decide)⟩
    · cases hfj : find_by_id players j with
      | some r =>
        rw [cache_response_update t1 t2 t3 players _ j r hdid hfj]
        simp only [cache_coll]
        refine ⟨cp, ?_, hflag⟩
        rw [find_by_id_update_first_ne players j j pid _
          (apply_set_merged_id t1 t2 _ j hndata hdid) hj hj]
        exact hfind
      | none =>
        rw [cache_response_insert t1 t2 t3 players _ j hdid hfj]
        simp only [cache_coll]
        refine ⟨cp, ?_, hflag⟩
        rw [find_by_id_append, hfind]

/-- Witness for C4: a cached player `{id: "7", isLbPlayer: true}` refreshed
with fresh data `{id: "7", name: "N"}` (no agent/flag field) keeps
`isLbPlayer = true`. -/
theorem c4_sticky_flag_witness :
    ∃ cp', find_by_id (refresh_player_profile 1 2 3
        [[("id", Value.vstr "7"), ("isLbPlayer", Value.vbool true)]]
        (Value.vstr "7")
        (some [("id", Value.vstr "7"), ("name", Value.vstr "N")]))
        (Value.vstr "7") = some cp' ∧
      dget cp' "isLbPlayer" = some (Value.vbool true) :=
  c4_sticky_flag 1 2 3
    [[("id", Value.vstr "7"), ("isLbPlayer", Value.vbool true)]]
    (Value.vstr "7")
    [("id", Value.vstr "7"), ("isLbPlayer", Value.vbool true)]
    [("id", Value.vstr "7"), ("name", Value.vstr "N")]
    (by decide) (by decide) (by decide) (by decide)

/-- C5: when the Provider Client returns a falsy profile (`None` or an
empty mapping) during a refresh of a player, `refresh_player_profile`
performs no write: the players collection after the call is exactly the
collection before it, every field of every record (including `updatedAt`)
unchanged. -/
theorem c5_no_overwrite_on_empty_fetch :
    ∀ (t1 t2 t3 : Int) (players : Coll) (pid : Value),
      refresh_player_profile t1 t2 t3 players pid none = players ∧
      refresh_player_profile t1 t2 t3 players pid (some []) = players := by
  intro t1 t2 t3 players pid
  exact ⟨rfl, rfl⟩

/-- C7 counterexample: the claim fails as stated — on a cache miss,
`handle_request` does not cache every fetched result before returning it.
A plain-mapping response (a `dict`) never satisfies
`hasattr(response, "id")`, so here a fetched `{id: "1"}` mapping is
returned with the store left empty: nothing was cached for id "1". -/
theorem c7_counterexample :
    handle_request 0 0 0 0 ([] : Coll) (Value.vstr "1")
      (FetchResult.mapping [("id", Value.vstr "1")]) =
      ([], HandleRet.fetched (FetchResult.mapping [("id", Value.vstr "1")])) ∧
    find_by_id (handle_request 0 0 0 0 ([] : Coll) (Value.vstr "1")
      (FetchResult.mapping [("id", Value.vstr "1")])).1 (Value.vstr "1") =
      none := by
  exact ⟨rfl, rfl⟩

/-- C7 (amended): `handle_request` returns the cached record whenever a
non-empty one exists, with no freshness check; otherwise it invokes the
fetch function and returns its result, caching it (stamping `updatedAt`
first) only when the response is a model object exposing a truthy `id`
attribute — a plain-mapping response, a model without an `id` field and a
model with a falsy `id` are all returned uncached, the store untouched. -/
theorem c7_handle_request_cache_aside (t1 t2 t3 tiso : Int) (c : Coll)
    (rid : Value) :
    (∀ cached, find_by_id c rid = some cached → cached ≠ [] →
      ∀ fetch, handle_request t1 t2 t3 tiso c rid fetch =
        (c, HandleRet.fromCache cached)) ∧
    (find_by_id c rid = none →
      (∀ f i, dget f "id" = some i → i.truthy = true →
        ∃ (c' : Coll) (r : CacheRet),
          cache_response t1 t2 t3 c
            (dset f "updatedAt" (Value.vtstr tiso)) = CacheResult.ok c' r ∧
          handle_request t1 t2 t3 tiso c rid (FetchResult.model f) =
            (c', HandleRet.fetched (FetchResult.model f))) ∧
      (∀ f, handle_request t1 t2 t3 tiso c rid (FetchResult.mapping f) =
        (c, HandleRet.fetched (FetchResult.mapping f))) ∧
      (∀ f, dget f "id" = none →
        handle_request t1 t2 t3 tiso c rid (FetchResult.model f) =
          (c, HandleRet.fetched (FetchResult.model f))) ∧
      (∀ f i, dget f "id" = some i → i.truthy = false →
        handle_request t1 t2 t3 tiso c rid (FetchResult.model f) =
          (c, HandleRet.fetched (FetchResult.model f)))) := by
  constructor
  · intro cached hc hne fetch
    have hisEmpty : cached.isEmpty = false := by
      cases cached with
      | nil => exact absurd rfl hne
      | cons x xs => rfl
    simp [handle_request, hc, hisEmpty]
  · intro hmiss
    refine ⟨?_, ?_, ?_, ?_⟩
    · intro f i hid htruthy
      have hdid : dget (dset f "updatedAt" (Value.vtstr tiso)) "id" =
          some i := by
        rw [dget_dset_ne _ _ _ _ (by decide)]
        exact hid
      have hok : ∃ (c' : Coll) (r : CacheRet),
          cache_response t1 t2 t3 c (dset f "updatedAt" (Value.vtstr tiso)) =
            CacheResult.ok c' r := by
        cases hf2 : find_by_id c i with
        | some r =>
          exact ⟨_, _, cache_response_update t1 t2 t3 c _ i r hdid hf2⟩
        | none =>
          exact ⟨_, _, cache_response_insert t1 t2 t3 c _ i hdid hf2⟩
      obtain ⟨c', r, hcr⟩ := hok
      refine ⟨c', r, hcr, ?_⟩
      simp [handle_request, hmiss, handle_fetch, fetch_id_attr, hid,
        htruthy, fetch_fields, hcr]
    · intro f
      simp [handle_request, hmiss, handle_fetch, fetch_id_attr]
    · intro f hid
      simp [handle_request, hmiss, handle_fetch, fetch_id_attr, hid]
    · intro f i hid htruthy
      simp [handle_request, hmiss, handle_fetch, fetch_id_attr,
        fetch_fields, hid, htruthy]

/-- C10: for every document containing an `"id"` key, `cache_response`
completes its lookup-then-write normally; for any document lacking `"id"`,
it raises `KeyError` at the `data["id"]` access before performing any store
write (the collection it leaves behind is exactly the input collection). -/
theorem c10_cache_response_id_precondition :
    ∀ (t1 t2 t3 : Int) (c : Coll) (data : Doc),
      (dget data "id" = none →
        cache_response t1 t2 t3 c data = CacheResult.keyError c) ∧
      (∀ i : Value, dget data "id" = some i →
        ∃ (c' : Coll) (r : CacheRet),
          cache_response t1 t2 t3 c data = CacheResult.ok c' r) := by
  intro t1 t2 t3 c data
  refine ⟨fun h => cache_response_keyError t1 t2 t3 c data h, fun i hid => ?_⟩
  cases hf : find_by_id c i with
  | some r =>
    exact ⟨_, _, cache_response_update t1 t2 t3 c data i r hid hf⟩
  | none =>
    exact ⟨_, _, cache_response_insert t1 t2 t3 c data i hid hf⟩

/-- A provider whose every fetch is falsy (used by concrete instances). -/
def null_provider : Provider where
  search_clubs := fun _ => none
  get_club_players := fun _ => none
  get_player_profile := fun _ => none

/-- A one-club, one-player-per-roster provider (used by concrete
instances). -/
def tiny_provider : Provider where
  search_clubs := fun _ => none
  get_club_players := fun _ => some (some [[("id", Value.vstr "p")]])
  get_player_profile := fun _ => some [("id", Value.vstr "p")]

/-- A store holding one club and no players (used by concrete instances). -/
def tiny_store : RefreshStore where
  clubs := [[("id", Value.vstr "c")]]
  players := []

/-- C6: one refresh cycle over a discovered working set of C clubs and P
total roster players issues exactly C + P provider calls beyond the
discovery phase (whose own calls are `calls0`: one per seed league when the
clubs collection was empty, zero otherwise), and sleeps a total delay of
exactly `SCRAPE_DELAY * (C + P)` beyond the discovery delay — hence at
least `SCRAPE_DELAY * (C + P)` — because every roster fetch and every
profile refresh is followed by one `SCRAPE_DELAY` sleep in a strictly
sequential chain.  Well-formedness (every club and roster entry carries an
`id`) rules out the `KeyError` paths that would cut a loop short. -/
theorem c6_pacing_bound (prov : Provider) (t1 t2 t3 : Int)
    (st : RefreshStore) (clubs : List Doc) (calls0 delay0 : Nat)
    (hga : get_all_clubs prov st.clubs = some (clubs, calls0, delay0))
    (hwf : wellformed_clubs prov clubs = true) :
    (∃ st', refresh_all_players prov t1 t2 t3 st =
      some (st', calls0 + (clubs.length + total_players prov clubs),
        delay0 + SCRAPE_DELAY * (clubs.length + total_players prov clubs))) ∧
    delay0 + SCRAPE_DELAY * (clubs.length + total_players prov clubs) ≥
      SCRAPE_DELAY * (clubs.length + total_players prov clubs) ∧
    (st.clubs = [] → calls0 = popular_leagues.length) ∧
    (st.clubs ≠ [] → calls0 = 0) := by
  refine ⟨?_, Nat.le_add_left _ _, ?_, ?_⟩
  · simp only [refresh_all_players, hga]
    by_cases hne : clubs.isEmpty
    · have hnil : clubs = [] := by simpa using hne
      subst hnil
      refine ⟨st, ?_⟩
      simp [total_players]
    · rcases hcl : refresh_clubs_list prov t1 t2 t3 st.players clubs
        with ⟨pl, cn, dn⟩
      have hcount := refresh_clubs_list_count prov t1 t2 t3 clubs
        st.players hwf
      rw [hcl] at hcount
      simp only at hcount
      injection hcount with hc hd
      subst hc
      subst hd
      refine ⟨{ st with players := pl }, ?_⟩
      simp [hne, hcl]
  · intro hnil
    rw [hnil] at hga
    have hseed : seed_leagues prov popular_leagues =
        some (clubs, calls0, delay0) := by
      simpa [get_all_clubs] using hga
    have hcnt := seed_leagues_count prov popular_leagues _ hseed
    simp only at hcnt
    exact congrArg Prod.fst hcnt
  · intro hne
    have htake : st.clubs.take 1000 ≠ [] := by
      rw [Ne, List.take_eq_nil_iff]
      push_neg
      exact ⟨by omega, hne⟩
    have hget : get_all_clubs prov st.clubs =
        some (st.clubs.take 1000, 0, 0) := by
      simp [get_all_clubs, List.isEmpty_eq_false.mpr htake]
    rw [hget] at hga
    exact (congrArg (fun t => t.2.1) (Option.some_injective _ hga)).symm

/-- Witness for C6: one club with a one-player roster — two provider calls
and a total delay of `2 * SCRAPE_DELAY` past the (empty) discovery phase. -/
theorem c6_pacing_bound_witness :
    (∃ st', refresh_all_players tiny_provider 0 0 0 tiny_store =
      some (st', 0 + (1 + 1), 0 + SCRAPE_DELAY * (1 + 1))) ∧
    0 + SCRAPE_DELAY * (1 + 1) ≥ SCRAPE_DELAY * (1 + 1) ∧
    (tiny_store.clubs = [] → 0 = popular_leagues.length) ∧
    (tiny_store.clubs ≠ [] → 0 = 0) :=
  c6_pacing_bound tiny_provider 0 0 0 tiny_store
    [[("id", Value.vstr "c")]] 0 0 rfl (by decide)

/-- C8 counterexample: the claim fails as stated — a refresh cycle does not
read *all* Club records from the store: the read is capped at the first
1000 documents (`to_list(length=1000)`).  With 1001 stored clubs, discovery
returns only 1000 of them. -/
theorem c8_counterexample :
    (get_all_clubs null_provider
      (List.replicate 1001 [("id", Value.vstr "c")])).map
        (fun r => r.1.length) = some 1000 ∧
    (List.replicate 1001 ([("id", Value.vstr "c")] : Doc)).length = 1001 := by
  constructor
  · have htake : (List.replicate 1001
        ([("id", Value.vstr "c")] : Doc)).take 1000 =
        List.replicate 1000 [("id", Value.vstr "c")] := by
      rw [List.take_replicate]
      norm_num
    have hne : (List.replicate 1001
        ([("id", Value.vstr "c")] : Doc)).take 1000 ≠ [] := by
      rw [htake]
      intro hcontra
      have hlen := congrArg List.length hcontra
      rw [List.length_replicate, List.length_nil] at hlen
      omega
    simp only [get_all_clubs, List.isEmpty_eq_false.mpr hne, if_false,
      Bool.false_eq_true]
    rw [htake]
    show some (List.replicate 1000
      ([("id", Value.vstr "c")] : Doc)).length = some 1000
    rw [List.length_replicate]
  · exact List.length_replicate 1001 _

/-- C8 (amended): a refresh cycle first reads the stored Club records (up
to the first 1000); if and only if none exist it falls back to seeding,
querying the Provider Client exactly once per league in the fixed list
`popular_leagues` with one `SCRAPE_DELAY` pause after each query; and when
the seed queries yield no clubs the whole cycle ends having refreshed zero
clubs, without raising an error and without touching the store. -/
theorem c8_working_set_discovery (prov : Provider) (clubs_coll : Coll) :
    (clubs_coll ≠ [] →
      get_all_clubs prov clubs_coll =
        some (clubs_coll.take 1000, 0, 0)) ∧
    (clubs_coll = [] →
      get_all_clubs prov clubs_coll = seed_leagues prov popular_leagues ∧
      (∀ res, seed_leagues prov popular_leagues = some res →
        res.2 = (popular_leagues.length,
          SCRAPE_DELAY * popular_leagues.length)) ∧
      (seed_yields_no_clubs prov = true →
        ∀ (t1 t2 t3 : Int) (st : RefreshStore), st.clubs = clubs_coll →
          refresh_all_players prov t1 t2 t3 st =
            some (st, popular_leagues.length,
              SCRAPE_DELAY * popular_leagues.length))) := by
  constructor
  · intro hne
    have htake : clubs_coll.take 1000 ≠ [] := by
      rw [Ne, List.take_eq_nil_iff]
      push_neg
      exact ⟨by omega, hne⟩
    simp [get_all_clubs, List.isEmpty_eq_false.mpr htake]
  · intro hnil
    subst hnil
    refine ⟨by simp [get_all_clubs],
      fun res h => seed_leagues_count prov popular_leagues res h,
      fun hno t1 t2 t3 st hst => ?_⟩
    have hseed := seed_leagues_no_clubs_run prov popular_leagues hno
    simp only [refresh_all_players, get_all_clubs, hst, List.take_nil,
      List.isEmpty_nil, if_true, hseed]

/-- Witness for C8 (amended), empty-store side: with no stored clubs and a
provider whose seed queries yield nothing, the cycle makes exactly one call
per seed league, sleeps `SCRAPE_DELAY` per league, refreshes zero clubs and
raises no error. -/
theorem c8_working_set_discovery_witness :
    get_all_clubs null_provider ([] : Coll) =
      seed_leagues null_provider popular_leagues ∧
    (∀ res, seed_leagues null_provider popular_leagues = some res →
      res.2 = (popular_leagues.length,
        SCRAPE_DELAY * popular_leagues.length)) ∧
    (seed_yields_no_clubs null_provider = true →
      ∀ (t1 t2 t3 : Int) (st : RefreshStore), st.clubs = [] →
        refresh_all_players null_provider t1 t2 t3 st =
          some (st, popular_leagues.length,
            SCRAPE_DELAY * popular_leagues.length)) :=
  (c8_working_set_discovery null_provider []).2 rfl

/-- C9: the scheduler's `start`/`stop` contract.  `start` while running is
a no-op (the state, including the ever-spawned counter, is unchanged, so no
second loop task is created); `stop` while stopped is a no-op returning no
error; `stop` from running clears the flag, leaves no loop task alive
(having awaited its exit) and propagates no exception — the cancellation
signal is caught and discarded; and along any sequence of invocations at
most one loop task is ever alive. -/
theorem c9_scheduler_state_machine :
    (∀ s : Sched, s.is_running = true → sched_start s = s) ∧
    (∀ (s : Sched) (e : TaskExit), s.is_running = false →
      sched_stop s e = (s, none)) ∧
    (∀ (s : Sched) (e : TaskExit), s.is_running = true →
      (sched_stop s e).1.is_running = false ∧
      (sched_stop s e).1.live = 0 ∧ (sched_stop s e).2 = none) ∧
    (∀ ops : List SchedOp, (sched_run ops).live ≤ 1) := by
  have hstop : ∀ (s : Sched) (e : TaskExit), s.is_running = true →
      sched_stop s e =
        ({ is_running := false, task := s.task, live := 0,
           spawned := s.spawned }, none) := by
    intro s e h
    cases ht : s.task with
    | none => simp [sched_stop, h, ht]
    | some n => cases e <;> simp [sched_stop, h, ht]
  refine ⟨fun s h => by simp [sched_start, h], fun s e h => ?_,
    fun s e h => by rw [hstop s e h]; exact ⟨rfl, rfl, rfl⟩, ?_⟩
  · simp [sched_stop, h]
  · have hstep : ∀ (s : Sched) (op : SchedOp),
        s.live = (if s.is_running then 1 else 0) →
        (sched_step s op).live =
          (if (sched_step s op).is_running then 1 else 0) := by
      intro s op hP
      cases op with
      | opStart =>
        by_cases h : s.is_running <;>
          simp [sched_step, sched_start, h, hP]
      | opStop e =>
        by_cases h : s.is_running
        · rw [show sched_step s (SchedOp.opStop e) = (sched_stop s e).1
            from rfl, hstop s e h]
          rfl
        · simp [sched_step, sched_stop, h, hP]
    have hall : ∀ (ops : List SchedOp) (s : Sched),
        s.live = (if s.is_running then 1 else 0) →
        (ops.foldl sched_step s).live =
          (if (ops.foldl sched_step s).is_running then 1 else 0) := by
      intro ops
      induction ops with
      | nil => intro s h; exact h
      | cons op rest ih => intro s h; exact ih _ (hstep s op h)
    intro ops
    have h := hall ops sched_init rfl
    rw [sched_run]
    rw [h]
    by_cases hr : (ops.foldl sched_step sched_init).is_running <;>
      simp [hr]

end Pylbapi
